import Mathlib

/-!
A verification development for the `prview` command-line tool
(single source file `src/main.rs`).

Modelling conventions, used consistently below:

* Rust `String` / `&str` values are modelled as `List Char` (`Str` below);
  Rust string concatenation is list append.
* `chrono::DateTime<Utc>` timestamps are modelled at second granularity as
  `Int` (seconds since an arbitrary epoch).  `chrono`'s
  `num_minutes` / `num_hours` / `num_days` and Rust's `i64` division all
  truncate toward zero, which is `Int.tdiv`.
* Rust `i32` PR numbers are modelled as `Int`; no arithmetic is performed on
  them, so overflow is irrelevant.
* The decimal rendering used by Rust's `Display` for integers is modelled
  explicitly (`toDec` / `intRepr`), written with structural fuel so that the
  kernel can evaluate it on concrete inputs.
* ANSI colouring from the `colored` crate wraps the status and title fields;
  it introduces no tab characters and is abstracted away (identity), since
  every claim below concerns either field boundaries or the uncoloured label.
* `Vec::sort_by` is a stable sort by the given comparator; since the
  comparator `prCmp` below is a total preorder, every stable sort produces
  the same output, and we model it by the stable insertion sort `sortPR`.
* The per-invocation temporary directory is a fixed prefix shared by every
  artifact path of one run; it neither affects equality of paths nor the
  protocol fields, so paths are modelled by the file name alone.
-/

namespace Prview

/-- Rust strings, modelled as their character lists. -/
abbrev Str := List Char

/-- The normalized pull-request record (struct `PullRequest`, main.rs:31-43). -/
structure PullRequest where
  number : Int
  title : Str
  html_url : Str
  body : Option Str
  created_at : Int
  updated_at : Int
  repository_name : Str
  state : Str
  is_draft : Bool
  merged : Bool
deriving DecidableEq

/-- One decimal digit character. -/
def decDigit : Nat → Char
  | 0 => '0'
  | 1 => '1'
  | 2 => '2'
  | 3 => '3'
  | 4 => '4'
  | 5 => '5'
  | 6 => '6'
  | 7 => '7'
  | 8 => '8'
  | _ => '9'

/-- Decimal rendering of a natural number, with structural fuel (the fuel is
always sufficient because a number is smaller than itself plus one). -/
def toDecAux : Nat → Nat → List Char
  | 0, _ => []
  | fuel + 1, n =>
    if n < 10 then [decDigit n]
    else toDecAux fuel (n / 10) ++ [decDigit (n % 10)]

/-- Decimal rendering of a natural number (Rust `Display` for unsigned values). -/
def toDec (n : Nat) : List Char := toDecAux (n + 1) n

/-- Decimal rendering of an integer (Rust `Display` for signed values). -/
def intRepr (n : Int) : List Char :=
  if n < 0 then '-' :: toDec (-n).toNat else toDec n.toNat

/-- `get_relative_time` (main.rs:45-65), parameterized by the current time
`now` that the source reads from the clock.  `diff.num_minutes()` etc. are
truncating divisions of the difference in seconds. -/
def get_relative_time (now date : Int) : Str :=
  let diff := now - date
  let diff_mins := diff.tdiv 60
  let diff_hours := diff.tdiv 3600
  let diff_days := diff.tdiv 86400
  let diff_weeks := diff_days.tdiv 7
  if diff_days < 1 then
    if diff_hours < 1 then
      intRepr diff_mins ++ " minute".data ++
        (if diff_mins = 1 then [] else "s".data) ++ " ago".data
    else
      intRepr diff_hours ++ " hour".data ++
        (if diff_hours = 1 then [] else "s".data) ++ " ago".data
  else if diff_days < 7 then
    intRepr diff_days ++ " day".data ++
      (if diff_days = 1 then [] else "s".data) ++ " ago".data
  else
    intRepr diff_weeks ++ " week".data ++
      (if diff_weeks = 1 then [] else "s".data) ++ " ago".data

/-- `get_status_priority` (main.rs:67-75). -/
def get_status_priority (pr : PullRequest) : Int :=
  if pr.is_draft || (pr.state == "OPEN".data && !pr.is_draft) then 0
  else if pr.merged then 1
  else 2

/-- Rust's `Ord::cmp` on a totally ordered scalar. -/
def icmp (x y : Int) : Ordering :=
  if x < y then .lt else if x = y then .eq else .gt

/-- The comparator closure passed to `sort_by` (main.rs:234-243): most recent
`updated_at` first, ties broken by `get_status_priority` ascending.  The
source binds the date comparison to a local `date_cmp`; it is inlined here. -/
def prCmp (a b : PullRequest) : Ordering :=
  if icmp b.updated_at a.updated_at = Ordering.eq then
    icmp (get_status_priority a) (get_status_priority b)
  else icmp b.updated_at a.updated_at

/-- Stable insertion of an element into a list: it passes exactly the elements
strictly smaller under `prCmp` and lands before any equal one. -/
def insertPR (a : PullRequest) : List PullRequest → List PullRequest
  | [] => [a]
  | b :: bs => if prCmp a b = Ordering.gt then b :: insertPR a bs else a :: b :: bs

/-- `all_prs.sort_by(...)` (main.rs:234-243).  `Vec::sort_by` is a stable sort
and `prCmp` is a total preorder, so its output coincides with this stable
insertion sort. -/
def sortPR (l : List PullRequest) : List PullRequest := l.foldr insertPR []

/-- The four display statuses. -/
inductive Status
  | OPEN
  | DRAFT
  | MERGED
  | CLOSED
deriving DecidableEq

/-- The display labeler `status_colored` (main.rs:254-262), with the ANSI
colouring abstracted away: `merged` wins, then `state == "CLOSED"`, then
`is_draft`, else open. -/
def displayStatus (pr : PullRequest) : Status :=
  if pr.merged then .MERGED
  else if pr.state == "CLOSED".data then .CLOSED
  else if pr.is_draft then .DRAFT
  else .OPEN

/-- The uncoloured text of a display status. -/
def statusName : Status → Str
  | .OPEN => "OPEN".data
  | .DRAFT => "DRAFT".data
  | .MERGED => "MERGED".data
  | .CLOSED => "CLOSED".data

/-- The status field appearing in a selector protocol line. -/
def statusLabel (pr : PullRequest) : Str := statusName (displayStatus pr)

/-- The ranking tier of a status as the spec words it (section 4.2): OPEN and
DRAFT share the highest tier, MERGED is next, CLOSED is lowest.  Spec-side
definition, to be compared with `get_status_priority`. -/
def statusTier : Status → Int
  | .OPEN => 0
  | .DRAFT => 0
  | .MERGED => 1
  | .CLOSED => 2

/-- The invariants the upstream GitHub API guarantees for the raw fields of a
pull request: `merged` exactly for state `MERGED`, drafts only while open,
and the state is one of the three lifecycle states.  Used as the hypothesis
under which ranking and display agree. -/
@[reducible] def wfPR (pr : PullRequest) : Prop :=
  (pr.merged = true ↔ pr.state = "MERGED".data) ∧
  (pr.is_draft = true → pr.state = "OPEN".data) ∧
  (pr.state = "OPEN".data ∨ pr.state = "CLOSED".data ∨ pr.state = "MERGED".data)

/-- `safe_repo_name` (main.rs:267): every path separator of the repository
name replaced by an underscore. -/
def safe_repo_name (r : Str) : Str :=
  r.map (fun c => if c = '/' then '_' else c)

/-- The preview artifact file name (main.rs:268): the escaped repository name,
an underscore, the PR number, and the `.md` extension. -/
def file_name (pr : PullRequest) : Str :=
  safe_repo_name pr.repository_name ++ '_' :: intRepr pr.number ++ ".md".data

/-- The protocol delimiter. -/
def tab : Char := '\t'

/-- One selector protocol line (main.rs:280-297): artifact path, relative
time, status, title, and — only under `--all` — the repository name, joined
by tabs. -/
def fzfLine (all : Bool) (now : Int) (pr : PullRequest) : Str :=
  file_name pr ++ tab :: get_relative_time now pr.updated_at ++
    tab :: statusLabel pr ++ tab :: pr.title ++
    (if all then tab :: pr.repository_name else [])

/-- The path-to-record correlation map (main.rs:277), in ranking order. -/
def pr_map (ranked : List PullRequest) : List (Str × PullRequest) :=
  ranked.map (fun pr => (file_name pr, pr))

/-- Leading-whitespace trim. -/
def trimL (l : Str) : Str := l.dropWhile Char.isWhitespace

/-- Trailing-whitespace trim. -/
def trimR (l : Str) : Str := (l.reverse.dropWhile Char.isWhitespace).reverse

/-- Rust `str::trim`. -/
def trimStr (l : Str) : Str := trimL (trimR l)

/-- The artifact path recovered from the selector's output (main.rs:335-337):
the output is trimmed, split on tabs, and the first field taken; the first
field of a tab-split is everything before the first tab. -/
def selectionKey (stdout : Str) : Str :=
  (trimStr stdout).takeWhile (fun c => c != tab)

/-- The lookup of the selection in the correlation map (main.rs:339): the
first entry whose stored path equals the recovered path. -/
def lookupSelected (m : List (Str × PullRequest)) (stdout : Str) :
    Option (Str × PullRequest) :=
  m.find? (fun e => e.1 == selectionKey stdout)

/-- How one invocation ends after the selector ran. -/
inductive Outcome
  | selected (title url : Str)
  | silent
  | noSelection
deriving DecidableEq

/-- The selector output handling (main.rs:334-346): empty captured output
(which is all a cancellation or non-zero exit produces, because the exit
status itself is ignored via `unchecked`) prints the no-selection message;
nonempty output is looked up, a hit prints the selection, and a miss falls
through the `if let` printing nothing.  Every branch returns normally. -/
def handleSelection (m : List (Str × PullRequest)) (stdout : Str) : Outcome :=
  if stdout = [] then .noSelection
  else
    match lookupSelected m stdout with
    | some (_, pr) => .selected pr.title pr.html_url
    | none => .silent

/-- The lines printed for each outcome (main.rs:340-345). -/
def printedLines : Outcome → List Str
  | .selected t u =>
      ["".data, "Selected PR:".data, "Title: ".data ++ t, "URL  : ".data ++ u]
  | .silent => []
  | .noSelection => ["No PR selected.".data]

/-- Everything the program does after the fetch. -/
inductive RunOutput
  | noPRs
  | finished (files : List (Str × Str)) (lines : List Str) (o : Outcome)
deriving DecidableEq

/-- The post-fetch pipeline of `main` (main.rs:228-346): an empty fetch
result short-circuits to the no-PRs message, writing no artifact and never
invoking the selector; otherwise the list is ranked, every record's body (or
empty content) is materialized under its artifact path, the protocol lines
are built, the external selector is invoked once on them (modelled by the
oracle `sel` mapping the lines to the captured stdout), and its output is
resolved.  Every branch is a normal (non-error) termination; the fallible
filesystem writes are abstracted as always succeeding, which no claim below
depends on. -/
def runAfterFetch (all : Bool) (now : Int) (sel : List Str → Str)
    (prs : List PullRequest) : RunOutput :=
  if prs = [] then .noPRs
  else
    let ranked := sortPR prs
    let files := ranked.map (fun pr => (file_name pr, pr.body.getD []))
    let lines := ranked.map (fzfLine all now)
    .finished files lines (handleSelection (pr_map ranked) (sel lines))

/-- The lines printed by the whole post-fetch pipeline. -/
def runPrinted : RunOutput → List Str
  | .noPRs => ["No pull requests found.".data]
  | .finished _ _ o => printedLines o

/-- The GraphQL search query string (main.rs:142).  `fetch_pull_requests`
receives only the token, owner, repository and author — the `--all` flag is
not a parameter of the fetch, and the query is always restricted to one
repository. -/
def search_query (owner repo author : Str) : Str :=
  "type:pr repo:".data ++ owner ++ "/".data ++ repo ++ " author:".data ++ author

/-- A baseline concrete record for witnesses and counterexamples. -/
def basePR : PullRequest :=
  { number := 1, title := "t".data, html_url := "u".data, body := none,
    created_at := 0, updated_at := 0, repository_name := "x/y".data,
    state := "OPEN".data, is_draft := false, merged := false }

/-- An open record updated at time 100. -/
def prOld : PullRequest := { basePR with number := 9, updated_at := 100 }

/-- An open record updated at time 200. -/
def prNew : PullRequest := { basePR with number := 5, updated_at := 200 }

/-- A merged record still carrying the draft flag: displayed MERGED, ranked
in the top tier. -/
def prMrgDraft : PullRequest :=
  { basePR with
    title := "m".data
    state := "MERGED".data
    is_draft := true
    merged := true }

/-- A closed record with the same timestamp as `basePR`. -/
def prClosedEq : PullRequest :=
  { basePR with title := "c".data, state := "CLOSED".data }

/-- First half of the artifact-name collision pair: repository `a/b_c`. -/
def prColA : PullRequest :=
  { basePR with
    title := "A".data
    repository_name := "a/b_c".data
    number := 5 }

/-- Second half of the artifact-name collision pair: repository `a_b/c`. -/
def prColB : PullRequest :=
  { basePR with
    title := "B".data
    repository_name := "a_b/c".data
    number := 5 }

/-- The value of a decimal digit character (proof-side inverse of
`decDigit`). -/
def digitVal : Char → Nat
  | '0' => 0
  | '1' => 1
  | '2' => 2
  | '3' => 3
  | '4' => 4
  | '5' => 5
  | '6' => 6
  | '7' => 7
  | '8' => 8
  | _ => 9

/-- Reads a decimal digit string back into a number (proof-side inverse of
`toDec`). -/
def parseDec (l : List Char) : Nat :=
  l.foldl (fun acc c => acc * 10 + digitVal c) 0

/-! ## Comparator and sort lemmas -/

theorem icmp_eq_gt {x y : Int} : icmp x y = Ordering.gt ↔ y < x := by
  unfold icmp
  split
  · simp only [reduceCtorEq, false_iff]; omega
  · split
    · simp only [reduceCtorEq, false_iff]; omega
    · simp only [true_iff]; omega

theorem icmp_eq_eq {x y : Int} : icmp x y = Ordering.eq ↔ x = y := by
  unfold icmp
  split
  · simp only [reduceCtorEq, false_iff]; omega
  · split
    · simp only [true_iff]; omega
    · simp only [reduceCtorEq, false_iff]; omega

theorem icmp_self (x : Int) : icmp x x = Ordering.eq := by
  unfold icmp
  simp

/-- The ranking order as a proposition: `a` may come (weakly) before `b`. -/
theorem Rle_iff {a b : PullRequest} :
    prCmp a b ≠ Ordering.gt ↔
      b.updated_at < a.updated_at ∨
        (b.updated_at = a.updated_at ∧
          get_status_priority a ≤ get_status_priority b) := by
  unfold prCmp
  split <;> rename_i h <;> rw [icmp_eq_eq] at h <;>
    simp only [ne_eq, icmp_eq_gt] <;> omega

theorem Rle_trans {a b c : PullRequest} (h₁ : prCmp a b ≠ Ordering.gt)
    (h₂ : prCmp b c ≠ Ordering.gt) : prCmp a c ≠ Ordering.gt := by
  rw [Rle_iff] at h₁ h₂ ⊢
  omega

theorem Rle_total {a b : PullRequest} (h : ¬ prCmp a b ≠ Ordering.gt) :
    prCmp b a ≠ Ordering.gt := by
  rw [Rle_iff] at h ⊢
  omega

theorem mem_insertPR {a x : PullRequest} {l : List PullRequest} :
    a ∈ insertPR x l ↔ a = x ∨ a ∈ l := by
  induction l with
  | nil => simp [insertPR]
  | cons b bs ih =>
    unfold insertPR
    split
    · simp only [List.mem_cons, ih]
      tauto
    · simp only [List.mem_cons]

theorem mem_sortPR {a : PullRequest} {l : List PullRequest} :
    a ∈ sortPR l ↔ a ∈ l := by
  induction l with
  | nil => simp [sortPR]
  | cons b bs ih =>
    show a ∈ insertPR b (sortPR bs) ↔ _
    simp only [mem_insertPR, ih, List.mem_cons]

theorem pairwise_insertPR {x : PullRequest} {l : List PullRequest}
    (hl : l.Pairwise (fun a b => prCmp a b ≠ Ordering.gt)) :
    (insertPR x l).Pairwise (fun a b => prCmp a b ≠ Ordering.gt) := by
  induction l with
  | nil => simp [insertPR]
  | cons b bs ih =>
    rw [List.pairwise_cons] at hl
    obtain ⟨hb, hbs⟩ := hl
    unfold insertPR
    split <;> rename_i hcmp
    · rw [List.pairwise_cons]
      refine ⟨?_, ih hbs⟩
      intro y hy
      rcases mem_insertPR.mp hy with rfl | hy
      · exact Rle_total (not_not_intro hcmp)
      · exact hb y hy
    · rw [List.pairwise_cons]
      refine ⟨?_, List.pairwise_cons.mpr ⟨hb, hbs⟩⟩
      intro y hy
      rcases List.mem_cons.mp hy with rfl | hy
      · exact hcmp
      · exact Rle_trans hcmp (hb y hy)

theorem pairwise_sortPR (l : List PullRequest) :
    (sortPR l).Pairwise (fun a b => prCmp a b ≠ Ordering.gt) := by
  induction l with
  | nil => simp [sortPR]
  | cons b bs ih =>
    show (insertPR b (sortPR bs)).Pairwise _
    exact pairwise_insertPR ih

/-! ## Claim C1 -/

/-- Claim C1: in the ranked output, of any two records with distinct
`updated_at` the one with the later timestamp appears strictly earlier,
regardless of either record's status. -/
theorem rank_recency_desc (l : List PullRequest) (i j : Nat)
    (hi : i < (sortPR l).length) (hj : j < (sortPR l).length) (hij : i < j)
    (hne : ((sortPR l).get ⟨i, hi⟩).updated_at ≠
      ((sortPR l).get ⟨j, hj⟩).updated_at) :
    ((sortPR l).get ⟨j, hj⟩).updated_at <
      ((sortPR l).get ⟨i, hi⟩).updated_at := by
  have h := List.pairwise_iff_getElem.mp (pairwise_sortPR l) i j hi hj hij
  simp only [Rle_iff] at h
  simp only [List.get_eq_getElem] at hne ⊢
  omega

/-- Witness for C1 at a concrete input. -/
theorem rank_recency_desc_witness :
    ((sortPR [prOld, prNew]).get ⟨1, by decide⟩).updated_at <
      ((sortPR [prOld, prNew]).get ⟨0, by decide⟩).updated_at :=
  rank_recency_desc [prOld, prNew] 0 1 (by decide) (by decide) (by decide)
    (by decide)

/-! ## Status priority against the display status -/

/-- Under the upstream API invariants the ranker's raw-flag priority equals
the tier of the display status. -/
theorem priority_eq_tier {pr : PullRequest} (h : wfPR pr) :
    get_status_priority pr = statusTier (displayStatus pr) := by
  obtain ⟨hm, hd, hs⟩ := h
  cases hmg : pr.merged with
  | true =>
    have hst := hm.mp hmg
    have hdr : pr.is_draft = false := by
      cases hdr : pr.is_draft
      · rfl
      · rw [hd hdr] at hst
        exact absurd hst (by decide)
    unfold get_status_priority displayStatus
    rw [hst, hmg, hdr]
    decide
  | false =>
    rcases hs with h1 | h1 | h1
    · unfold get_status_priority displayStatus
      rw [h1, hmg]
      cases hdr : pr.is_draft <;> decide
    · have hdr : pr.is_draft = false := by
        cases hdr : pr.is_draft
        · rfl
        · rw [hd hdr] at h1
          exact absurd h1 (by decide)
      unfold get_status_priority displayStatus
      rw [h1, hmg, hdr]
      decide
    · have hmt := hm.mpr h1
      rw [hmg] at hmt
      exact absurd hmt (by decide)

/-! ## Claim C2 -/

/-- Claim C2 counterexample: two records with equal `updated_at`, one
displayed MERGED (because it is merged) and the other OPEN; the claim says
the OPEN one must rank earlier, but the MERGED one — which carries the
draft flag, putting it in the ranker's top tier — keeps its earlier
position under the stable sort. -/
theorem rank_tiebreak_counterexample :
    prMrgDraft.updated_at = basePR.updated_at ∧
      displayStatus prMrgDraft = Status.MERGED ∧
      displayStatus basePR = Status.OPEN ∧
      sortPR [prMrgDraft, basePR] = [prMrgDraft, basePR] := by decide

/-- Claim C2, amended: for records satisfying the upstream API invariants
(`wfPR`), among equal `updated_at` the ranked output is in nondecreasing
display-status tier order — OPEN/DRAFT before MERGED before CLOSED. -/
theorem rank_tiebreak_by_tier (l : List PullRequest)
    (hwf : ∀ pr ∈ l, wfPR pr) (i j : Nat)
    (hi : i < (sortPR l).length) (hj : j < (sortPR l).length) (hij : i < j)
    (heq : ((sortPR l).get ⟨i, hi⟩).updated_at =
      ((sortPR l).get ⟨j, hj⟩).updated_at) :
    statusTier (displayStatus ((sortPR l).get ⟨i, hi⟩)) ≤
      statusTier (displayStatus ((sortPR l).get ⟨j, hj⟩)) := by
  have h := List.pairwise_iff_getElem.mp (pairwise_sortPR l) i j hi hj hij
  simp only [Rle_iff] at h
  have hmi : (sortPR l)[i] ∈ l := mem_sortPR.mp (List.getElem_mem hi)
  have hmj : (sortPR l)[j] ∈ l := mem_sortPR.mp (List.getElem_mem hj)
  have pi := priority_eq_tier (hwf _ hmi)
  have pj := priority_eq_tier (hwf _ hmj)
  simp only [List.get_eq_getElem] at heq ⊢
  omega

/-- Witness for the amended C2 at a concrete input. -/
theorem rank_tiebreak_by_tier_witness :
    statusTier (displayStatus ((sortPR [prClosedEq, basePR]).get ⟨0, by decide⟩)) ≤
      statusTier (displayStatus ((sortPR [prClosedEq, basePR]).get ⟨1, by decide⟩)) :=
  rank_tiebreak_by_tier [prClosedEq, basePR] (by decide) 0 1 (by decide)
    (by decide) (by decide) (by decide)

/-! ## Claim C9 -/

/-- Claim C9 counterexample: a record that is both draft-flagged and merged
is put in the top tier by the ranker but labelled MERGED (tier 1) by the
display labeler — the two do not agree on a single status for it. -/
theorem status_collapse_counterexample :
    get_status_priority prMrgDraft ≠ statusTier (displayStatus prMrgDraft) := by
  decide

/-- Claim C9, amended: the display labeler assigns every record exactly one
of the four statuses, and for records satisfying the upstream API
invariants the ranker's priority coincides with that status's tier. -/
theorem status_collapse_agreement (pr : PullRequest) (h : wfPR pr) :
    get_status_priority pr = statusTier (displayStatus pr) :=
  priority_eq_tier h

/-- Witness for the amended C9 at a concrete input. -/
theorem status_collapse_agreement_witness :
    get_status_priority basePR = statusTier (displayStatus basePR) :=
  status_collapse_agreement basePR (by decide)

/-! ## Claim C10 -/

/-- Claim C10: a draft-flagged record gets ranking priority 0 regardless of
its state or merged flag, ties (comparator `eq`) with any priority-0 record
of equal `updated_at`, and is nevertheless displayed MERGED when merged and
CLOSED when closed-but-unmerged. -/
theorem draft_always_top_tier (pr : PullRequest) (h : pr.is_draft = true) :
    get_status_priority pr = 0 ∧
      (∀ q : PullRequest, q.updated_at = pr.updated_at →
        get_status_priority q = 0 → prCmp pr q = Ordering.eq) ∧
      (pr.merged = true → displayStatus pr = Status.MERGED) ∧
      (pr.merged = false → pr.state = "CLOSED".data →
        displayStatus pr = Status.CLOSED) := by
  have hp : get_status_priority pr = 0 := by
    simp [get_status_priority, h]
  refine ⟨hp, ?_, ?_, ?_⟩
  · intro q hq hq0
    simp [prCmp, hq, hp, hq0, icmp_self]
  · intro hm
    simp [displayStatus, hm]
  · intro hm hst
    simp [displayStatus, hm, hst]

/-- Witness for C10 at a concrete input. -/
theorem draft_always_top_tier_witness :
    get_status_priority prMrgDraft = 0 ∧
      prCmp prMrgDraft basePR = Ordering.eq ∧
      displayStatus prMrgDraft = Status.MERGED :=
  ⟨(draft_always_top_tier prMrgDraft (by decide)).1,
    (draft_always_top_tier prMrgDraft (by decide)).2.1 basePR (by decide)
      (by decide),
    (draft_always_top_tier prMrgDraft (by decide)).2.2.1 (by decide)⟩

/-! ## Claim C3 -/

/-- Claim C3: for a nonnegative difference, the relative-time label
classifies it into minutes below one hour, hours below one day, days below
seven days, and weeks from seven days on, always flooring the count, with
the singular unit exactly at count one; boundary examples included. -/
theorem relative_time_classification (now date : Int) (h : date ≤ now) :
    (now - date < 3600 →
      get_relative_time now date =
        intRepr ((now - date).tdiv 60) ++ " minute".data ++
          (if (now - date).tdiv 60 = 1 then [] else "s".data) ++ " ago".data) ∧
    (3600 ≤ now - date → now - date < 86400 →
      get_relative_time now date =
        intRepr ((now - date).tdiv 3600) ++ " hour".data ++
          (if (now - date).tdiv 3600 = 1 then [] else "s".data) ++ " ago".data) ∧
    (86400 ≤ now - date → now - date < 604800 →
      get_relative_time now date =
        intRepr ((now - date).tdiv 86400) ++ " day".data ++
          (if (now - date).tdiv 86400 = 1 then [] else "s".data) ++ " ago".data) ∧
    (604800 ≤ now - date →
      get_relative_time now date =
        intRepr (((now - date).tdiv 86400).tdiv 7) ++ " week".data ++
          (if ((now - date).tdiv 86400).tdiv 7 = 1 then [] else "s".data) ++
            " ago".data) ∧
    get_relative_time 0 0 = "0 minutes ago".data ∧
    get_relative_time 60 0 = "1 minute ago".data ∧
    get_relative_time 3600 0 = "1 hour ago".data ∧
    get_relative_time 86340 0 = "23 hours ago".data ∧
    get_relative_time 86400 0 = "1 day ago".data ∧
    get_relative_time 601200 0 = "6 days ago".data ∧
    get_relative_time 604800 0 = "1 week ago".data := by
  obtain ⟨m, hm⟩ : ∃ m : Nat, now - date = (m : Int) :=
    ⟨(now - date).toNat, (Int.toNat_of_nonneg (by omega)).symm⟩
  have t60 : (now - date).tdiv 60 = ((m / 60 : Nat) : Int) := by
    rw [hm]; exact rfl
  have t3600 : (now - date).tdiv 3600 = ((m / 3600 : Nat) : Int) := by
    rw [hm]; exact rfl
  have t86400 : (now - date).tdiv 86400 = ((m / 86400 : Nat) : Int) := by
    rw [hm]; exact rfl
  have t7 : ((m / 86400 : Nat) : Int).tdiv 7 = ((m / 86400 / 7 : Nat) : Int) :=
    rfl
  refine ⟨?_, ?_, ?_, ?_, by decide, by decide, by decide, by decide,
    by decide, by decide, by decide⟩
  · intro h1
    rw [hm] at h1
    simp only [get_relative_time]
    rw [t60, t3600, t86400]
    rw [if_pos (by omega : ((m / 86400 : Nat) : Int) < 1),
      if_pos (by omega : ((m / 3600 : Nat) : Int) < 1)]
  · intro h1 h2
    rw [hm] at h1 h2
    simp only [get_relative_time]
    rw [t60, t3600, t86400]
    rw [if_pos (by omega : ((m / 86400 : Nat) : Int) < 1),
      if_neg (by omega : ¬ ((m / 3600 : Nat) : Int) < 1)]
  · intro h1 h2
    rw [hm] at h1 h2
    simp only [get_relative_time]
    rw [t60, t3600, t86400]
    rw [if_neg (by omega : ¬ ((m / 86400 : Nat) : Int) < 1),
      if_pos (by omega : ((m / 86400 : Nat) : Int) < 7)]
  · intro h1
    rw [hm] at h1
    simp only [get_relative_time]
    rw [t60, t3600, t86400, t7]
    rw [if_neg (by omega : ¬ ((m / 86400 : Nat) : Int) < 1),
      if_neg (by omega : ¬ ((m / 86400 : Nat) : Int) < 7)]

/-- Witness for C3 at a concrete input. -/
theorem relative_time_classification_witness :
    get_relative_time 60 0 = "1 minute ago".data :=
  (relative_time_classification 60 0 (by decide)).2.2.2.2.2.1

/-! ## Decimal rendering lemmas -/

theorem digitVal_decDigit (k : Nat) (hk : k < 10) :
    digitVal (decDigit k) = k := by
  interval_cases k <;> decide

theorem decDigit_is_digit (k : Nat) : decDigit k ∈ "0123456789".data := by
  match k with
  | 0 | 1 | 2 | 3 | 4 | 5 | 6 | 7 | 8 => decide
  | n + 9 =>
    have h : decDigit (n + 9) = '9' := rfl
    rw [h]
    decide

theorem toDecAux_digits :
    ∀ (fuel n : Nat) (c : Char), c ∈ toDecAux fuel n →
      c ∈ "0123456789".data := by
  intro fuel
  induction fuel with
  | zero => intro n c hc; simp [toDecAux] at hc
  | succ f ih =>
    intro n c hc
    unfold toDecAux at hc
    split at hc
    · rw [List.mem_singleton] at hc
      rw [hc]
      exact decDigit_is_digit n
    · rw [List.mem_append] at hc
      rcases hc with hc | hc
      · exact ih _ _ hc
      · rw [List.mem_singleton] at hc
        rw [hc]
        exact decDigit_is_digit _

theorem parse_toDecAux :
    ∀ (fuel n : Nat), n < fuel → parseDec (toDecAux fuel n) = n := by
  intro fuel
  induction fuel with
  | zero => intro n hn; omega
  | succ f ih =>
    intro n hn
    unfold toDecAux
    split <;> rename_i h10
    · show 0 * 10 + digitVal (decDigit n) = n
      rw [digitVal_decDigit n h10]
      omega
    · have hd : n / 10 < f := by
        have h1 : n / 10 < n := Nat.div_lt_self (by omega) (by omega)
        omega
      unfold parseDec
      rw [List.foldl_append]
      show (parseDec (toDecAux f (n / 10))) * 10 + digitVal (decDigit (n % 10)) = n
      rw [ih _ hd, digitVal_decDigit _ (Nat.mod_lt _ (by omega))]
      omega

theorem toDec_inj {a b : Nat} (h : toDec a = toDec b) : a = b := by
  have ha := parse_toDecAux (a + 1) a (by omega)
  have hb := parse_toDecAux (b + 1) b (by omega)
  unfold toDec at h
  rw [h, hb] at ha
  exact ha.symm

theorem underscore_not_in_toDec (n : Nat) : '_' ∉ toDec n := by
  intro hmem
  have h := toDecAux_digits _ _ _ hmem
  exact absurd h (by decide)

theorem dash_not_in_toDec (n : Nat) : '-' ∉ toDec n := by
  intro hmem
  have h := toDecAux_digits _ _ _ hmem
  exact absurd h (by decide)

theorem underscore_not_in_intRepr (n : Int) : '_' ∉ intRepr n := by
  unfold intRepr
  split
  · intro hmem
    rcases List.mem_cons.mp hmem with h | h
    · exact absurd h (by decide)
    · exact underscore_not_in_toDec _ h
  · exact underscore_not_in_toDec _

theorem intRepr_inj {a b : Int} (h : intRepr a = intRepr b) : a = b := by
  unfold intRepr at h
  split at h <;> rename_i ha <;> split at h <;> rename_i hb
  · rw [List.cons.injEq] at h
    have := toDec_inj h.2
    omega
  · exfalso
    apply dash_not_in_toDec b.toNat
    rw [← h]
    exact List.mem_cons_self _ _
  · exfalso
    apply dash_not_in_toDec a.toNat
    rw [h]
    exact List.mem_cons_self _ _
  · have := toDec_inj h
    omega

/-! ## Claim C4 -/

theorem split_one_sep :
    ∀ (s₁ d₁ s₂ d₂ : List Char), '_' ∉ d₁ → '_' ∉ d₂ →
      s₁ ++ '_' :: d₁ = s₂ ++ '_' :: d₂ → s₁ = s₂ ∧ d₁ = d₂ := by
  intro s₁
  induction s₁ with
  | nil =>
    intro d₁ s₂ d₂ h₁ h₂ he
    cases s₂ with
    | nil =>
      rw [List.nil_append, List.nil_append, List.cons.injEq] at he
      exact ⟨rfl, he.2⟩
    | cons c s₂ =>
      rw [List.nil_append, List.cons_append, List.cons.injEq] at he
      exfalso
      apply h₁
      rw [he.2]
      exact List.mem_append_right _ (List.mem_cons_self _ _)
  | cons a s₁ ih =>
    intro d₁ s₂ d₂ h₁ h₂ he
    cases s₂ with
    | nil =>
      rw [List.cons_append, List.nil_append, List.cons.injEq] at he
      exfalso
      apply h₂
      rw [← he.2]
      exact List.mem_append_right _ (List.mem_cons_self _ _)
    | cons b s₂ =>
      rw [List.cons_append, List.cons_append, List.cons.injEq] at he
      obtain ⟨hs, hd⟩ := ih d₁ s₂ d₂ h₁ h₂ he.2
      refine ⟨?_, hd⟩
      rw [he.1, hs]

theorem safe_repo_name_inj :
    ∀ (r₁ r₂ : Str), '_' ∉ r₁ → '_' ∉ r₂ →
      safe_repo_name r₁ = safe_repo_name r₂ → r₁ = r₂ := by
  intro r₁
  induction r₁ with
  | nil =>
    intro r₂ h₁ h₂ he
    cases r₂ with
    | nil => rfl
    | cons b r₂ => simp [safe_repo_name] at he
  | cons a r₁ ih =>
    intro r₂ h₁ h₂ he
    cases r₂ with
    | nil => simp [safe_repo_name] at he
    | cons b r₂ =>
      unfold safe_repo_name at he
      rw [List.map_cons, List.map_cons, List.cons.injEq] at he
      obtain ⟨hab, he'⟩ := he
      have ha : a ≠ '_' := fun hc => h₁ (hc ▸ List.mem_cons_self _ _)
      have hb : b ≠ '_' := fun hc => h₂ (hc ▸ List.mem_cons_self _ _)
      have hab' : a = b := by
        by_cases ca : a = '/'
        · by_cases cb : b = '/'
          · rw [ca, cb]
          · rw [if_pos ca, if_neg cb] at hab
            exact absurd hab.symm hb
        · by_cases cb : b = '/'
          · rw [if_neg ca, if_pos cb] at hab
            exact absurd hab ha
          · rw [if_neg ca, if_neg cb] at hab
            exact hab
      rw [List.cons.injEq]
      exact ⟨hab', ih r₂ (fun hc => h₁ (List.mem_cons_of_mem _ hc))
        (fun hc => h₂ (List.mem_cons_of_mem _ hc)) he'⟩

/-- Claim C4 counterexample: two distinct records, in distinct repositories
with the same PR number, whose artifact file names coincide because the
escaped forms of `a/b_c` and `a_b/c` are both `a_b_c`. -/
theorem artifact_name_collision :
    file_name prColA = file_name prColB ∧ prColA ≠ prColB ∧
      prColA.repository_name ≠ prColB.repository_name := by decide

/-- Claim C4, amended: artifact file names are pairwise distinct for records
with distinct (repository, number) pairs, provided the repository names do
not themselves contain the placeholder character. -/
theorem artifact_names_distinct (a b : PullRequest)
    (ha : '_' ∉ a.repository_name) (hb : '_' ∉ b.repository_name)
    (hne : ¬(a.repository_name = b.repository_name ∧ a.number = b.number)) :
    file_name a ≠ file_name b := by
  intro he
  unfold file_name at he
  have he' : (safe_repo_name a.repository_name ++ '_' :: intRepr a.number) ++
      ".md".data =
      (safe_repo_name b.repository_name ++ '_' :: intRepr b.number) ++
        ".md".data := by
    simpa [List.append_assoc] using he
  have hc := List.append_cancel_right he'
  obtain ⟨hs, hd⟩ := split_one_sep _ _ _ _ (underscore_not_in_intRepr _)
    (underscore_not_in_intRepr _) hc
  exact hne ⟨safe_repo_name_inj _ _ ha hb hs, intRepr_inj hd⟩

/-- Witness for the amended C4 at a concrete input. -/
theorem artifact_names_distinct_witness : file_name prOld ≠ file_name prNew :=
  artifact_names_distinct prOld prNew (by decide) (by decide) (by decide)

/-! ## Claim C5 -/

theorem dropWhile_append_stop {p : Char → Bool} :
    ∀ (l₁ l₂ : List Char), (∃ c, c ∈ l₁ ∧ p c = false) →
      List.dropWhile p (l₁ ++ l₂) = List.dropWhile p l₁ ++ l₂ := by
  intro l₁
  induction l₁ with
  | nil =>
    intro l₂ h
    obtain ⟨c, hc, _⟩ := h
    simp at hc
  | cons a l₁ ih =>
    intro l₂ h
    by_cases hp : p a = true
    · obtain ⟨c, hc, hpc⟩ := h
      have hc' : c ∈ l₁ := by
        rcases List.mem_cons.mp hc with rfl | hmm
        · rw [hp] at hpc
          exact absurd hpc (by decide)
        · exact hmm
      rw [List.cons_append, List.dropWhile_cons, if_pos hp,
        List.dropWhile_cons, if_pos hp]
      exact ih l₂ ⟨c, hc', hpc⟩
    · rw [List.cons_append, List.dropWhile_cons, if_neg hp,
        List.dropWhile_cons, if_neg hp, List.cons_append]

theorem trimR_append (l₁ l₂ : Str)
    (h : ∃ c, c ∈ l₂ ∧ c.isWhitespace = false) :
    trimR (l₁ ++ l₂) = l₁ ++ trimR l₂ := by
  obtain ⟨c, hc, hw⟩ := h
  unfold trimR
  rw [List.reverse_append,
    dropWhile_append_stop _ _ ⟨c, List.mem_reverse.mpr hc, hw⟩,
    List.reverse_append, List.reverse_reverse]

theorem g_mem_grt (now date : Int) : 'g' ∈ get_relative_time now date := by
  have hg : 'g' ∈ " ago".data := by decide
  simp only [get_relative_time]
  split
  · split <;> simp only [List.mem_append] <;> tauto
  · split <;> simp only [List.mem_append] <;> tauto

theorem file_name_ne_nil (pr : PullRequest) : file_name pr ≠ [] := by
  unfold file_name
  cases h : safe_repo_name pr.repository_name <;> simp

theorem takeWhile_until_tab :
    ∀ (p r : Str), tab ∉ p →
      (p ++ tab :: r).takeWhile (fun c => c != tab) = p := by
  intro p
  induction p with
  | nil =>
    intro r h
    rw [List.nil_append, List.takeWhile_cons]
    simp
  | cons a p ih =>
    intro r h
    have ha : a ≠ tab := fun hc => h (hc ▸ List.mem_cons_self _ _)
    rw [List.cons_append, List.takeWhile_cons, if_pos (by simp [ha]),
      ih r (fun hm => h (List.mem_cons_of_mem _ hm))]

theorem selectionKey_concat (p r : Str) (hne : p ≠ [])
    (hp : ∀ c ∈ p, c.isWhitespace = false)
    (hr : ∃ c, c ∈ r ∧ c.isWhitespace = false) :
    selectionKey (p ++ tab :: r) = p := by
  have htab : tab ∉ p := by
    intro hm
    have h1 := hp tab hm
    exact absurd h1 (by decide)
  unfold selectionKey trimStr
  have e1 : trimR (p ++ tab :: r) = p ++ tab :: trimR r := by
    obtain ⟨c, hc, hw⟩ := hr
    rw [trimR_append p (tab :: r) ⟨c, List.mem_cons_of_mem _ hc, hw⟩]
    have e2 : trimR (tab :: r) = tab :: trimR r := by
      have e3 := trimR_append [tab] r ⟨c, hc, hw⟩
      simpa using e3
    rw [e2]
  rw [e1]
  cases p with
  | nil => exact absurd rfl hne
  | cons a p' =>
    have ha : a.isWhitespace = false := hp a (List.mem_cons_self _ _)
    unfold trimL
    rw [List.cons_append, List.dropWhile_cons, if_neg (by simp [ha]),
      ← List.cons_append]
    exact takeWhile_until_tab (a :: p') (trimR r) htab

theorem selectionKey_fzfLine (all : Bool) (now : Int) (pr : PullRequest)
    (hws : ∀ c ∈ file_name pr, c.isWhitespace = false) :
    selectionKey (fzfLine all now pr) = file_name pr := by
  have hline : fzfLine all now pr =
      file_name pr ++ tab ::
        (get_relative_time now pr.updated_at ++
          (tab :: statusLabel pr ++ (tab :: pr.title ++
            (if all then tab :: pr.repository_name else [])))) := by
    simp [fzfLine, List.cons_append, List.append_assoc]
  rw [hline]
  exact selectionKey_concat _ _ (file_name_ne_nil pr) hws
    ⟨'g', List.mem_append_left _ (g_mem_grt now pr.updated_at), by decide⟩

theorem find_in_pr_map :
    ∀ (l : List PullRequest) (i : Nat) (hi : i < l.length),
      (l.map file_name).Nodup →
      (pr_map l).find? (fun e => e.1 == file_name (l.get ⟨i, hi⟩)) =
        some (file_name (l.get ⟨i, hi⟩), l.get ⟨i, hi⟩) := by
  intro l
  induction l with
  | nil => intro i hi hnd; simp at hi
  | cons a l ih =>
    intro i hi hnd
    rw [List.map_cons, List.nodup_cons] at hnd
    obtain ⟨hna, hnd⟩ := hnd
    cases i with
    | zero =>
      unfold pr_map
      rw [List.map_cons]
      rw [List.find?_cons_of_pos _ (by simp)]
      exact rfl
    | succ n =>
      have hn : n < l.length := by simpa using hi
      unfold pr_map
      rw [List.map_cons]
      rw [List.find?_cons_of_neg]
      · exact ih n hn hnd
      · simp only [beq_iff_eq]
        intro hEq
        apply hna
        rw [hEq]
        exact List.mem_map_of_mem _ (List.get_mem l n hn)

/-- Claim C5 counterexample: with two records whose artifact paths collide
(repositories `a/b_c` and `a_b/c`, same number), looking up the protocol
line built for the second record resolves to the first record, not the
record the line was built for. -/
theorem roundtrip_counterexample :
    lookupSelected (pr_map [prColA, prColB]) (fzfLine false 0 prColB) =
      some (file_name prColA, prColA) ∧ prColA ≠ prColB := by decide

/-- Claim C5, amended: whenever the artifact paths of the listed records are
pairwise distinct and contain no whitespace, splitting the protocol line
built for a record on the delimiter and looking its first field up in the
path-to-record map yields exactly that record's entry. -/
theorem roundtrip_selection (all : Bool) (now : Int) (l : List PullRequest)
    (i : Nat) (hi : i < l.length)
    (hws : ∀ c ∈ file_name (l.get ⟨i, hi⟩), c.isWhitespace = false)
    (hnd : (l.map file_name).Nodup) :
    lookupSelected (pr_map l) (fzfLine all now (l.get ⟨i, hi⟩)) =
      some (file_name (l.get ⟨i, hi⟩), l.get ⟨i, hi⟩) := by
  unfold lookupSelected
  rw [selectionKey_fzfLine all now _ hws]
  exact find_in_pr_map l i hi hnd

/-- Witness for the amended C5 at a concrete input. -/
theorem roundtrip_selection_witness :
    lookupSelected (pr_map [prNew]) (fzfLine false 0 prNew) =
      some (file_name prNew, prNew) :=
  roundtrip_selection false 0 [prNew] 0 (by decide) (by decide) (by decide)

/-! ## Claim C6 -/

/-- Claim C6 counterexample: a nonempty selector output matching no stored
artifact path does not produce the no-selection message — the program
terminates silently, printing nothing. -/
theorem selector_no_match_counterexample :
    handleSelection (pr_map [basePR]) ['z'] = Outcome.silent ∧
      printedLines Outcome.silent = [] ∧
      Outcome.silent ≠ Outcome.noSelection := by decide

/-- Claim C6, amended: an empty selector output — all that a cancellation or
non-zero exit yields, since the exit status is ignored — produces the
no-selection message; a nonempty output with zero matches is ignored
silently (normal termination, no message, no error); a nonempty output with
at least one match selects the first matching record. -/
theorem selector_output_handling (m : List (Str × PullRequest))
    (stdout : Str) :
    (stdout = [] → handleSelection m stdout = Outcome.noSelection ∧
      printedLines (handleSelection m stdout) = ["No PR selected.".data]) ∧
    (stdout ≠ [] → lookupSelected m stdout = none →
      handleSelection m stdout = Outcome.silent ∧
      printedLines (handleSelection m stdout) = []) ∧
    (∀ p pr, stdout ≠ [] → lookupSelected m stdout = some (p, pr) →
      handleSelection m stdout = Outcome.selected pr.title pr.html_url) := by
  refine ⟨?_, ?_, ?_⟩
  · intro hempty
    subst hempty
    exact ⟨by simp [handleSelection], by simp [handleSelection, printedLines]⟩
  · intro h1 h2
    have hs : handleSelection m stdout = Outcome.silent := by
      unfold handleSelection
      rw [if_neg h1, h2]
    exact ⟨hs, by rw [hs]; exact rfl⟩
  · intro p pr h1 h2
    unfold handleSelection
    rw [if_neg h1, h2]

/-- Witness for the amended C6 at concrete inputs. -/
theorem selector_output_handling_witness :
    handleSelection ([] : List (Str × PullRequest)) [] = Outcome.noSelection ∧
      handleSelection ([] : List (Str × PullRequest)) ['z'] = Outcome.silent :=
  ⟨((selector_output_handling [] []).1 rfl).1,
    ((selector_output_handling [] ['z']).2.1 (by decide) rfl).1⟩

/-! ## Claim C7 -/

/-- Claim C7: an empty fetched list short-circuits to the "No pull requests
found." message — no artifact is materialized, the selector is never
invoked (the `noPRs` output carries no files and no protocol lines), and
the run ends normally. -/
theorem empty_fetch_soft_outcome (all : Bool) (now : Int)
    (sel : List Str → Str) :
    runAfterFetch all now sel [] = RunOutput.noPRs ∧
      runPrinted RunOutput.noPRs = ["No pull requests found.".data] ∧
      (∀ files lines o,
        runAfterFetch all now sel [] ≠ RunOutput.finished files lines o) := by
  have h : runAfterFetch all now sel [] = RunOutput.noPRs := by
    simp [runAfterFetch]
  refine ⟨h, rfl, ?_⟩
  intro files lines o
  rw [h]
  simp

/-! ## Claim C8 -/

/-- Claim C8 evaluation at the failing input: the GraphQL search query is
built from owner, repository and author alone — `fetch_pull_requests` has
no scope parameter at all — so even under `--all` the query restricts to
the single current repository. -/
theorem query_repo_scoped :
    search_query "x".data "y".data "z".data =
      "type:pr repo:x/y author:z".data := by decide

end Prview
